import Mathlib

/-!
Verification of the tinytui compression core against its specification.

The definitions below are a shallow embedding of the Go sources:
  * `internal/tinify/client.go` — the service client (`doShrinkWithRetry`,
    `downloadWithRetry`, `Compress`);
  * `internal/pipeline/pipeline.go` — the pipeline (`AddFiles`, `worker`,
    `process`, `copyFile`) and its `Job` data model;
  * `internal/config` — the `Config` record driving output placement.

Remote HTTP traffic is modelled by an oracle `Nat → ShrinkReply`
(resp. `Nat → DlReply`) giving the reply to the i-th request of a call;
replies carry the already-decoded JSON envelope fields used by the client.
Time is modelled by recording the backoff sleeps (in seconds) that the
client performs; the filesystem is a map from path to byte list.
-/

deriving instance DecidableEq for Except

namespace Tinytui

/-! ## Service client (internal/tinify/client.go) -/

/-- Errors produced by the client, mirroring client.go: `APIError`
(status code, `error` and `message` fields of the JSON envelope), the two
`max retries exceeded` sentinels and the non-200 download failure. -/
inductive ClientError where
  | api (statusCode : Nat) (etype msg : String)
  | maxRetriesUpload
  | maxRetriesDownload
  | downloadFailed (status : Nat)
deriving DecidableEq, Repr

/-- Reply of the shrink endpoint to one POST: either a transport-level
failure (`c.Client.Do` returns an error, no response) or an HTTP response
with a status code and the decoded envelope fields. -/
inductive ShrinkReply where
  | netFail
  | reply (status : Nat) (etype msg : String) (outSize : Int) (url : String)
deriving DecidableEq, Repr

/-- Reply of the download URL to one GET: transport failure or an HTTP
response carrying a status and the body bytes. -/
inductive DlReply where
  | netFail
  | reply (status : Nat) (body : List Nat)
deriving DecidableEq, Repr

/-- `maxRetries := 2` in both retry loops of client.go. -/
def maxRetries : Nat := 2

/-- `baseDelay := 1 * time.Second`; we count delays in whole seconds. -/
def baseDelay : Nat := 1

/-- Outcome of one shrink attempt. -/
inductive ShrinkStep where
  | retry
  | fatal (e : ClientError)
  | ok (outSize : Int) (url : String)
deriving DecidableEq, Repr

/-- Classification of one reply inside the loop of `doShrinkWithRetry`
(client.go lines 137-168): transport error → retry; 401/429 → typed
`APIError`, no retry; ≥ 500 → retry; other ≥ 400 → typed `APIError`,
no retry; otherwise the decoded envelope is returned. -/
def classifyShrink : ShrinkReply → ShrinkStep
  | .netFail => .retry
  | .reply status etype msg outSize url =>
    if status = 401 ∨ status = 429 then .fatal (.api status etype msg)
    else if 500 ≤ status then .retry
    else if 400 ≤ status then .fatal (.api status etype msg)
    else .ok outSize url

/-- Result of a `doShrinkWithRetry` call: the outcome, the number of
requests issued, and the list of backoff waits (seconds) performed before
retry attempts. -/
structure ShrinkRun where
  result : Except ClientError (Int × String)
  requests : Nat
  waits : List Nat
deriving DecidableEq, Repr

/-- The retry loop of `doShrinkWithRetry`: `for i := 0; i <= maxRetries;
i++`, sleeping `baseDelay * (1 << i)` before every attempt with `i > 0`.
`fuel` counts the attempts still allowed, `i` is the Go loop counter
(equal to the number of requests already issued). -/
def doShrinkLoop (r : Nat → ShrinkReply) : Nat → Nat → List Nat → ShrinkRun
  | 0, i, waits => ⟨.error .maxRetriesUpload, i, waits⟩
  | fuel + 1, i, waits =>
    let waits := if 0 < i then waits ++ [baseDelay * 2 ^ i] else waits
    match classifyShrink (r i) with
    | .retry => doShrinkLoop r fuel (i + 1) waits
    | .fatal e => ⟨.error e, i + 1, waits⟩
    | .ok outSize url => ⟨.ok (outSize, url), i + 1, waits⟩

/-- `doShrinkWithRetry` (client.go lines 111-171): at most
`maxRetries + 1 = 3` attempts. -/
def doShrinkWithRetry (r : Nat → ShrinkReply) : ShrinkRun :=
  doShrinkLoop r (maxRetries + 1) 0 []

/-- Result of a `downloadWithRetry` call. -/
structure DlRun where
  result : Except ClientError (List Nat)
  requests : Nat
  waits : List Nat
deriving DecidableEq, Repr

/-- The retry loop of `downloadWithRetry` (client.go lines 173-207):
same backoff schedule; transport error → retry; status ≠ 200 retries
only when ≥ 500, otherwise fails with `download failed`; 200 returns the
body stream. -/
def downloadLoop (d : Nat → DlReply) : Nat → Nat → List Nat → DlRun
  | 0, i, waits => ⟨.error .maxRetriesDownload, i, waits⟩
  | fuel + 1, i, waits =>
    let waits := if 0 < i then waits ++ [baseDelay * 2 ^ i] else waits
    match d i with
    | .netFail => downloadLoop d fuel (i + 1) waits
    | .reply status body =>
      if status ≠ 200 then
        if 500 ≤ status then downloadLoop d fuel (i + 1) waits
        else ⟨.error (.downloadFailed status), i + 1, waits⟩
      else ⟨.ok body, i + 1, waits⟩

/-- `downloadWithRetry`; the GET target is the result URL, which the
reply oracle already accounts for. -/
def downloadWithRetry (d : Nat → DlReply) : DlRun :=
  downloadLoop d (maxRetries + 1) 0 []

/-- Result of a `Compress` call: the outcome (body bytes, compressed
size reported by the API, original size measured locally) plus the
request/wait accounting of the two phases. -/
structure CompressRun where
  result : Except ClientError (List Nat × Int × Int)
  uploadRequests : Nat
  uploadWaits : List Nat
  downloadRequests : Nat
  downloadWaits : List Nat
deriving DecidableEq, Repr

/-- `Compress` (client.go lines 82-109): buffer the input (its length is
`originalSize`), upload with retry, then download the result with retry.
On upload failure no download request is issued. -/
def Compress (input : List Nat) (sr : Nat → ShrinkReply) (dr : Nat → DlReply) :
    CompressRun :=
  let s := doShrinkWithRetry sr
  match s.result with
  | .error e => ⟨.error e, s.requests, s.waits, 0, []⟩
  | .ok (outSize, _url) =>
    let d := downloadWithRetry dr
    match d.result with
    | .error e => ⟨.error e, s.requests, s.waits, d.requests, d.waits⟩
    | .ok body => ⟨.ok (body, outSize, input.length), s.requests, s.waits, d.requests, d.waits⟩

/-! ## Path helpers (Go path/filepath on a Unix separator) -/

/-- Split a character list on a separator, like `strings.Split` on one
character: `split sep "a/b" = ["a", "b"]`, with empty groups kept. -/
def splitOnChar (sep : Char) : List Char → List (List Char)
  | [] => [[]]
  | c :: rest =>
    let r := splitOnChar sep rest
    if c = sep then [] :: r
    else
      match r with
      | [] => [[c]]
      | g :: gs => (c :: g) :: gs

/-- Join character-list path elements with `/`. -/
def joinSlash : List (List Char) → List Char
  | [] => []
  | [x] => x
  | x :: xs => x ++ '/' :: joinSlash xs

/-- Go `path.Clean` (used by `filepath.Join`): resolve `.` and `..`
elements, drop repeated separators, return `.` for an empty result.
Implemented over character lists so that it evaluates inside the
kernel. -/
def pathClean (p : String) : String :=
  if p = "" then "."
  else
    let chars := p.toList
    let rooted := match chars with
      | '/' :: _ => true
      | _ => false
    let comps := splitOnChar '/' chars
    let out := comps.foldl (fun acc c =>
      if c = [] ∨ c = ['.'] then acc
      else if c = ['.', '.'] then
        match acc with
        | [] => if rooted then [] else [['.', '.']]
        | top :: rest => if top = ['.', '.'] then c :: acc else rest
      else c :: acc) []
    let s := joinSlash out.reverse
    if rooted then String.mk ('/' :: s)
    else if s = [] then "." else String.mk s

/-- Go `filepath.Join` restricted to two elements, as called in
`process`: skip leading empty elements, join with `/`, clean. -/
def filepathJoin (a b : String) : String :=
  if a = "" ∧ b = "" then ""
  else if a = "" then pathClean b
  else pathClean (a ++ ("/") ++ b)

/-- Go `filepath.Base`: `.` for the empty path, strip trailing slashes,
keep the final element, `/` if everything was slashes. -/
def filepathBase (p : String) : String :=
  if p = "" then "."
  else
    let chars := (p.toList.reverse.dropWhile (· = '/')).reverse
    if chars = [] then ("/")
    else String.mk (chars.reverse.takeWhile (· ≠ '/')).reverse

/-- Helper for `filepathExt`: walk the reversed characters of the path,
stopping at the first `.` (the last one of the final element) or at a
separator. The accumulator holds the characters after the dot in source
order. -/
def extLoop : List Char → List Char → String
  | [], _ => ""
  | c :: rest, acc =>
    if c = '/' then ""
    else if c = '.' then String.mk ('.' :: acc)
    else extLoop rest (c :: acc)

/-- Go `filepath.Ext`: the suffix beginning at the final dot of the final
path element, empty when there is none. -/
def filepathExt (p : String) : String := extLoop p.toList.reverse []

/-- Go `strings.TrimSuffix`, over character lists so that it evaluates
inside the kernel. -/
def trimSuffix (s sfx : String) : String :=
  let sl := s.toList
  let xl := sfx.toList
  if sl.reverse.take xl.length = xl.reverse then
    String.mk (sl.take (sl.length - xl.length))
  else s

/-! ## Configuration and output placement (internal/config, process) -/

/-- The output-policy fields of `config.Config` read by `process`:
`OutputMode` (documented values `"replace"` and `"directory"`),
`OutputDir` and `Suffix`. -/
structure Config where
  outputMode : String
  outputDir : String
  sfx : String
deriving DecidableEq, Repr

/-- The destination computation of `process` (pipeline.go lines
251-294).  Note the source only assigns `finalPath` inside the
`p.config.OutputMode == "replace"` branch; the `else` branch is an empty
comment block, so for any other mode `finalPath` keeps its zero value
`""`. -/
def finalPath (cfg : Config) (filePath : String) : String :=
  if cfg.outputMode = "replace" then
    if cfg.outputDir ≠ "" then
      let base := filepathBase filePath
      let base :=
        if cfg.sfx ≠ "" then
          let ext := filepathExt base
          let name := trimSuffix base ext
          name ++ cfg.sfx ++ ext
        else base
      filepathJoin cfg.outputDir base
    else
      if cfg.sfx ≠ "" then
        let ext := filepathExt filePath
        let name := trimSuffix filePath ext
        name ++ cfg.sfx ++ ext
      else filePath
  else ""

/-- Modelled from the spec (§4.2 step 6), for comparison with
`finalPath`: "If an output directory is configured: destination =
outputDir/<basename, with suffix inserted before extension if a suffix
is configured>. Else (same-directory mode): if a suffix is configured,
destination = original path with suffix inserted before the extension;
if no suffix, destination = the original path itself."  The spec states
this for every configured output policy, with no dependence on the
output-mode field. -/
def specDestination (cfg : Config) (filePath : String) : String :=
  if cfg.outputDir ≠ "" then
    let base := filepathBase filePath
    let base :=
      if cfg.sfx ≠ "" then
        let ext := filepathExt base
        let name := trimSuffix base ext
        name ++ cfg.sfx ++ ext
      else base
    filepathJoin cfg.outputDir base
  else
    if cfg.sfx ≠ "" then
      let ext := filepathExt filePath
      let name := trimSuffix filePath ext
      name ++ cfg.sfx ++ ext
    else filePath

/-! ## Jobs and the filesystem -/

/-- `JobStatus` (pipeline.go lines 15-23). -/
inductive JobStatus where
  | pending
  | processing
  | done
  | failed
  | cancelled
deriving DecidableEq, Repr

/-- Errors recorded on a job: a local I/O error (tagged with the
operation that produced it) or an error surfaced by the service client. -/
inductive JobError where
  | osErr (op : String)
  | clientErr (e : ClientError)
deriving DecidableEq, Repr

/-- `Job` (pipeline.go lines 25-34).  Sizes are Go `int64`, modelled as
`Int` (the claims never exercise overflow); `SavedPercent` is a
`float64` modelled as `ℚ` — every value the claims mention is exactly
representable in both. -/
structure Job where
  id : String
  filePath : String
  originalSize : Int
  compressedSize : Int
  status : JobStatus
  error : Option JobError
  savedBytes : Int
  savedPercent : ℚ
deriving DecidableEq, Repr

/-- The filesystem: a map from path to file content (byte list). -/
def FS := String → Option (List Nat)

/-- Read a file (`os.Open` + reading it, or `os.Stat`). -/
def fsGet (fs : FS) (p : String) : Option (List Nat) := fs p

/-- Create or overwrite a file with the given content. -/
def fsSet (fs : FS) (p : String) (v : List Nat) : FS :=
  fun q => if q = p then some v else fs q

/-- `os.Remove` (ignoring its error, as the deferred cleanups do). -/
def fsRemove (fs : FS) (p : String) : FS :=
  fun q => if q = p then none else fs q

/-- Environment of one `process` call: the temp-file name chosen by
`os.CreateTemp`, the injected failures of the local syscalls, and the
reply oracles of the two remote calls.  `cutLen` is how many bytes an
interrupted `io.Copy` managed to write before failing. -/
structure Env where
  tmpName : String
  tempCreateFails : Bool
  shrinkReplies : Nat → ShrinkReply
  dlReplies : Nat → DlReply
  copyStreamFails : Bool
  mkdirFails : Bool
  renameFails : Bool
  copyCreateFails : Bool
  copyDataFails : Bool
  cutLen : Nat

/-- The success epilogue of `process` (pipeline.go lines 315-322):
record the compressed size, `SavedBytes = OriginalSize -
CompressedSize`, and `SavedPercent = SavedBytes / OriginalSize * 100`
guarded by `OriginalSize > 0`; mark `Done`. -/
def finishDone (job : Job) (fs : FS) (compressedSize : Int) : Job × FS :=
  let j := { job with compressedSize := compressedSize,
                      savedBytes := job.originalSize - compressedSize }
  let j :=
    if 0 < job.originalSize then
      { j with savedPercent := (j.savedBytes : ℚ) / (job.originalSize : ℚ) * 100 }
    else j
  ({ j with status := .done }, fs)

/-- The body of `process` after the `Processing` transition (pipeline.go
lines 191-322).  The input `job` already carries status `Processing`.
Takeaways from the source mirrored here:
  * `os.Open` fails iff the path is absent;
  * after `os.CreateTemp` succeeds there are two deferred cleanups:
    `defer os.Remove(tmpName)` (line 214, unconditional) and the
    `success`-guarded remove (lines 218-222) — so on *every* later exit
    the temp path is removed, whether or not `success` was set;
  * `os.Rename` to the empty string fails (ENOENT), as does
    `os.Create("")` in the copy fallback;
  * `copyFile` (lines 336-345) `os.Create`s (truncates) the destination
    before copying and removes nothing when the copy fails. -/
def processCore (cfg : Config) (env : Env) (fs : FS) (job : Job) : Job × FS :=
  match fsGet fs job.filePath with
  | none => ({ job with error := some (.osErr ("open")), status := .failed }, fs)
  | some input =>
    if env.tempCreateFails then
      ({ job with error := some (.osErr ("createTemp")), status := .failed }, fs)
    else
      let tmp := env.tmpName
      let fs := fsSet fs tmp []
      match (Compress input env.shrinkReplies env.dlReplies).result with
      | .error e =>
        ({ job with error := some (.clientErr e), status := .failed }, fsRemove fs tmp)
      | .ok (body, compressedSize, _origSize) =>
        if env.copyStreamFails then
          ({ job with error := some (.osErr ("copyStream")), status := .failed },
           fsRemove (fsSet fs tmp (body.take env.cutLen)) tmp)
        else
          let fs := fsSet fs tmp body
          let fp := finalPath cfg job.filePath
          if env.mkdirFails then
            ({ job with error := some (.osErr ("mkdirAll")), status := .failed },
             fsRemove fs tmp)
          else
            if env.renameFails = false ∧ fp ≠ "" then
              let fs := fsSet (fsRemove fs tmp) fp body
              finishDone job (fsRemove fs tmp) compressedSize
            else
              if env.copyCreateFails ∨ fp = "" then
                ({ job with error := some (.osErr ("copyCreate")), status := .failed },
                 fsRemove fs tmp)
              else
                let fs := fsSet fs fp []
                if env.copyDataFails then
                  ({ job with error := some (.osErr ("copyData")), status := .failed },
                   fsRemove (fsSet fs fp (body.take env.cutLen)) tmp)
                else
                  finishDone job (fsRemove (fsSet fs fp body) tmp) compressedSize

/-- Result of `process`: the final job, the final filesystem, and the
job snapshots published on the update stream, in order. -/
structure ProcResult where
  job : Job
  fs : FS
  updates : List Job

/-- `process` (pipeline.go lines 187-323): set `Processing` and publish,
run the body, publish the terminal snapshot.  Every return path of the
source publishes exactly once after the `Processing` update. -/
def process (cfg : Config) (env : Env) (fs : FS) (job : Job) : ProcResult :=
  let jobP := { job with status := JobStatus.processing }
  let r := processCore cfg env fs jobP
  ⟨r.1, r.2, [jobP, r.1]⟩

/-! ## Pipeline state machine (AddFiles, worker dispatch)

The pipeline state is the job list, the queue of job indices (the Go
channel holds `*Job` pointers; an index into the job list plays the role
of the pointer) and the filesystem.  Concurrency is modelled by
interleaving: an `add` operation is one `AddFiles` call and a `dispatch`
operation is one worker receiving from the queue and running `process`
to completion.  The pause gate and `ctx.Done()` only decide *whether* a
dispatch happens, so they are represented by the absence of dispatch
operations.  Each dispatch carries its own `Config`, matching the source
reading `p.config` afresh inside `process`. -/

structure PState where
  jobs : List Job
  queue : List Nat
  fs : FS

/-- The `Pending` job `AddFiles` creates for a path: the path is the id,
`originalSize` comes from `os.Stat` (0 when the stat fails). -/
def newJob (fs : FS) (p : String) : Job :=
  { id := p, filePath := p,
    originalSize := match fsGet fs p with
      | some content => (content.length : Int)
      | none => 0,
    compressedSize := 0, status := .pending, error := none,
    savedBytes := 0, savedPercent := 0 }

/-- The duplicate check of `AddFiles` (pipeline.go lines 99-105): a path
is skipped iff some existing job has the same path and a status that is
neither `Done` nor `Failed`. -/
def existsActive (jobs : List Job) (path : String) : Bool :=
  jobs.any (fun j => j.filePath = path ∧ j.status ≠ .done ∧ j.status ≠ .failed)

/-- One iteration of the `AddFiles` loop (pipeline.go lines 97-138):
skip duplicates, stat the file (size 0 when the stat fails), create a
`Pending` job, append it, enqueue it and publish a `Pending` update.
Returns the new job list, the enqueued indices and the published
updates. -/
def addFile (fs : FS) (jobs : List Job) (path : String) :
    List Job × List Nat × List (Nat × Job) :=
  if existsActive jobs path then (jobs, [], [])
  else (jobs ++ [newJob fs path], [jobs.length], [(jobs.length, newJob fs path)])

/-- `AddFiles(paths)` on the pipeline state.  The Go enqueue is
non-blocking with an asynchronous fallback when the channel is full; the
model's queue is unbounded, which collapses both cases into an append. -/
def addAll (s : PState) : List String → PState × List (Nat × Job)
  | [] => (s, [])
  | p :: ps =>
    let r := addFile s.fs s.jobs p
    let s1 : PState := ⟨r.1, s.queue ++ r.2.1, s.fs⟩
    let rest := addAll s1 ps
    (rest.1, r.2.2 ++ rest.2)

/-- A pipeline operation: one `AddFiles` call, or one worker iteration
(pipeline.go lines 175-183) that receives a job from the queue, skips it
when it is already `Cancelled`, and otherwise runs `process`. -/
inductive POp where
  | add (paths : List String)
  | dispatch (cfg : Config) (env : Env)

/-- One step of the pipeline. -/
def step (s : PState) : POp → PState × List (Nat × Job)
  | .add paths => addAll s paths
  | .dispatch cfg env =>
    match s.queue with
    | [] => (s, [])
    | idx :: rest =>
      match s.jobs[idx]? with
      | none => (⟨s.jobs, rest, s.fs⟩, [])
      | some job =>
        if job.status = .cancelled then (⟨s.jobs, rest, s.fs⟩, [])
        else
          let r := process cfg env s.fs job
          (⟨s.jobs.set idx r.job, rest, r.fs⟩, r.updates.map (fun j => (idx, j)))

/-- Run a list of pipeline operations, accumulating published updates. -/
def run (s : PState) : List POp → PState × List (Nat × Job)
  | [] => (s, [])
  | op :: ops =>
    let r := step s op
    let rest := run r.1 ops
    (rest.1, r.2 ++ rest.2)

/-- A fresh pipeline over a given filesystem: no jobs, empty queue. -/
def initState (fs : FS) : PState := ⟨[], [], fs⟩

/-! ## Status-trace observations -/

/-- The forward edges of the status lattice: from Pending to Processing
or Cancelled, from Processing to Done, Failed or Cancelled, together
with the stutter from Pending to Pending produced by the update that
`AddFiles` publishes right after creating a job. -/
def forwardOK : JobStatus → JobStatus → Bool
  | .pending, .pending => true
  | .pending, .processing => true
  | .pending, .cancelled => true
  | .processing, .done => true
  | .processing, .failed => true
  | .processing, .cancelled => true
  | _, _ => false

/-- The sequence of statuses job `idx` exhibits over a run: `Pending` at
creation, then the status of each published snapshot of that job. -/
def statusHistory (idx : Nat) (ups : List (Nat × Job)) : List JobStatus :=
  JobStatus.pending :: (ups.filter (fun u => u.1 = idx)).map (fun u => u.2.status)

/-- The status of job `idx` in a state (`Pending` for a not-yet-created
index, matching `statusHistory`). -/
def currentStatus (s : PState) (idx : Nat) : JobStatus :=
  match s.jobs[idx]? with
  | some j => j.status
  | none => .pending

/-- Transient upload replies in the sense of the spec: a network-level
transport failure, or an HTTP 5xx response. -/
def isTransientShrink : ShrinkReply → Bool
  | .netFail => true
  | .reply status _ _ _ _ => 500 ≤ status

/-- Transient download replies: transport failure or 5xx. -/
def isTransientDl : DlReply → Bool
  | .netFail => true
  | .reply status _ => 500 ≤ status

/-! ## Invariants of the pipeline state machine -/

/-- Property of the published updates: a `Failed` snapshot always
carries a recorded error, a `Done` snapshot never does. -/
def updProp (ups : List (Nat × Job)) : Prop :=
  ∀ u ∈ ups, (u.2.status = .failed → u.2.error.isSome = true) ∧
             (u.2.status = .done → u.2.error = none)

/-- Savings bookkeeping of a terminal job: when it is `Done`, the
formulas of pipeline.go lines 316-320 hold. -/
def statsOK (j : Job) : Prop :=
  j.status = .done →
    j.savedBytes = j.originalSize - j.compressedSize ∧
    (0 < j.originalSize →
      j.savedPercent = (j.savedBytes : ℚ) / (j.originalSize : ℚ) * 100) ∧
    (¬ 0 < j.originalSize → j.savedPercent = 0)

/-- The between-steps state invariant: the queue holds valid,
duplicate-free indices, and every job is either `Pending` (with no
recorded error and zeroed savings) and still queued, or terminal
(`Done`/`Failed`) with correct savings bookkeeping and no longer queued.
`Processing` is never observed between steps because a dispatch runs
`process` to completion, and nothing in the source ever assigns
`Cancelled`. -/
def atRest (s : PState) : Prop :=
  s.queue.Nodup ∧
  (∀ i ∈ s.queue, i < s.jobs.length) ∧
  (∀ i j, s.jobs[i]? = some j →
     (j.status = .pending ∧ i ∈ s.queue ∧ j.error = none ∧ j.savedPercent = 0) ∨
     ((j.status = .done ∨ j.status = .failed) ∧ i ∉ s.queue ∧ statsOK j))

/-- The trace invariant: every job's status history so far is a path of
forward edges, ending at the job's current status. -/
def histInv (s : PState) (ups : List (Nat × Job)) : Prop :=
  ∀ idx, List.Chain' (fun a b => forwardOK a b = true) (statusHistory idx ups) ∧
    (statusHistory idx ups).getLast? = some (currentStatus s idx)

/-- The combined invariant carried through `run`. -/
def goodState (s : PState) (ups : List (Nat × Job)) : Prop :=
  atRest s ∧ histInv s ups ∧ updProp ups

/-! ## Concrete instances used by the claims -/

/-- Mock remote service returning HTTP 500 exactly twice, then 200 with
an output of size 50 at URL `u`. -/
def mock552 : Nat → ShrinkReply := fun i =>
  if i < 2 then ShrinkReply.reply 500 ("ise") ("server error") 0 ("")
  else ShrinkReply.reply 200 ("") ("") 50 ("u")

/-- Mock remote service returning HTTP 401 with a typed error body. -/
def mock401 : Nat → ShrinkReply := fun _ =>
  ShrinkReply.reply 401 ("Unauthorized") ("Credentials are invalid") 0 ("")

/-- Mock shrink service that always fails at the transport level. -/
def mockShrinkNetFail : Nat → ShrinkReply := fun _ => ShrinkReply.netFail

/-- Mock download service that always returns HTTP 503. -/
def mockDl503 : Nat → DlReply := fun _ => DlReply.reply 503 []

/-- Mock download service returning HTTP 404 on the first attempt. -/
def mockDl404 : Nat → DlReply := fun _ => DlReply.reply 404 []

/-- Mock download service returning HTTP 200 with a 2-byte body. -/
def mockDl200 : Nat → DlReply := fun _ => DlReply.reply 200 [9, 9]

/-- Same-directory output policy with the default `.tiny` suffix. -/
def cfgSfx : Config := ⟨"replace", "", ".tiny"⟩

/-- In-place overwrite policy: mode `replace`, no directory, no suffix. -/
def cfgOverwrite : Config := ⟨"replace", "", ""⟩

/-- Output policy with the output mode set to `directory`. -/
def cfgDirectory : Config := ⟨"directory", "/out", ""⟩

/-- A filesystem holding one 4-byte image. -/
def fsOne : FS := fun p => if p = "/pics/a.png" then some [1, 2, 3, 4] else none

/-- The pending job `AddFiles` would create for that image. -/
def jobOne : Job :=
  { id := "/pics/a.png", filePath := "/pics/a.png", originalSize := 4,
    compressedSize := 0, status := .pending, error := none, savedBytes := 0,
    savedPercent := 0 }

/-- A healthy environment: compression succeeds with reported size
`outSz` and a body of `bodyLen` bytes, and no local operation fails. -/
def envOK (outSz : Int) (bodyLen : Nat) (tmp : String) : Env :=
  { tmpName := tmp, tempCreateFails := false,
    shrinkReplies := fun _ => ShrinkReply.reply 200 ("") ("") outSz ("u"),
    dlReplies := fun _ => DlReply.reply 200 (List.replicate bodyLen 2),
    copyStreamFails := false, mkdirFails := false, renameFails := false,
    copyCreateFails := false, copyDataFails := false, cutLen := 0 }

/-- The environment of the C4 failing trace: compression succeeds (the
result is the 2-byte body `[9, 9]`), the atomic rename fails (e.g.
cross-device), and the `io.Copy` inside the `copyFile` fallback fails
after writing 1 byte. -/
def envRenameCopyFail : Env :=
  { tmpName := "/tmp/tiny-1.tmp", tempCreateFails := false,
    shrinkReplies := fun _ => ShrinkReply.reply 200 ("") ("") 2 ("u"),
    dlReplies := fun _ => mockDl200 0,
    copyStreamFails := false, mkdirFails := false, renameFails := true,
    copyCreateFails := false, copyDataFails := true, cutLen := 1 }

/-- A job for `/pics/a.png` already in the `Cancelled` state. -/
def cancelledJob : Job := { jobOne with status := .cancelled }

/-- The three-file filesystem of the savings scenario: files of 100, 200
and 300 bytes. -/
def fs3 : FS := fun p =>
  if p = "/pics/a.png" then some (List.replicate 100 1)
  else if p = "/pics/b.png" then some (List.replicate 200 1)
  else if p = "/pics/c.png" then some (List.replicate 300 1)
  else none

/-- The savings scenario: add the three files, then dispatch each with a
mock service compressing them to 50, 100 and 150 bytes respectively. -/
def ops3 : List POp :=
  [POp.add ["/pics/a.png", "/pics/b.png", "/pics/c.png"],
   POp.dispatch cfgSfx (envOK 50 50 "/tmp/t0"),
   POp.dispatch cfgSfx (envOK 100 100 "/tmp/t1"),
   POp.dispatch cfgSfx (envOK 150 150 "/tmp/t2")]

/-! ## Lemmas about the client retry loops -/

theorem doShrinkLoop_zero (r : Nat → ShrinkReply) (i : Nat) (waits : List Nat) :
    doShrinkLoop r 0 i waits = ⟨.error .maxRetriesUpload, i, waits⟩ := rfl

theorem doShrinkLoop_succ (r : Nat → ShrinkReply) (fuel i : Nat) (waits : List Nat) :
    doShrinkLoop r (fuel + 1) i waits =
      let waits := if 0 < i then waits ++ [baseDelay * 2 ^ i] else waits
      match classifyShrink (r i) with
      | .retry => doShrinkLoop r fuel (i + 1) waits
      | .fatal e => ⟨.error e, i + 1, waits⟩
      | .ok outSize url => ⟨.ok (outSize, url), i + 1, waits⟩ := rfl

theorem downloadLoop_zero (d : Nat → DlReply) (i : Nat) (waits : List Nat) :
    downloadLoop d 0 i waits = ⟨.error .maxRetriesDownload, i, waits⟩ := rfl

theorem downloadLoop_succ (d : Nat → DlReply) (fuel i : Nat) (waits : List Nat) :
    downloadLoop d (fuel + 1) i waits =
      let waits := if 0 < i then waits ++ [baseDelay * 2 ^ i] else waits
      match d i with
      | .netFail => downloadLoop d fuel (i + 1) waits
      | .reply status body =>
        if status ≠ 200 then
          if 500 ≤ status then downloadLoop d fuel (i + 1) waits
          else ⟨.error (.downloadFailed status), i + 1, waits⟩
        else ⟨.ok body, i + 1, waits⟩ := rfl

theorem classifyShrink_transient (rep : ShrinkReply)
    (h : isTransientShrink rep = true) : classifyShrink rep = .retry := by
  cases rep with
  | netFail => rfl
  | reply status etype msg outSize url =>
    simp only [isTransientShrink, decide_eq_true_eq] at h
    simp only [classifyShrink]
    rw [if_neg (by omega), if_pos h]

/-- The waits of a full `doShrinkWithRetry` call: nothing before the
first attempt, then 2 s before the first retry and 4 s before the
second. -/
theorem doShrinkWithRetry_waits (r : Nat → ShrinkReply) :
    (doShrinkWithRetry r).waits = [] ∨ (doShrinkWithRetry r).waits = [2] ∨
    (doShrinkWithRetry r).waits = [2, 4] := by
  have h2 : ∀ w, (doShrinkLoop r 1 2 w).waits = w ++ [4] := by
    intro w
    rw [show (1 : Nat) = 0 + 1 from rfl, doShrinkLoop_succ]
    cases classifyShrink (r 2) <;> simp [doShrinkLoop_zero, baseDelay]
  have h1 : ∀ w, (doShrinkLoop r 2 1 w).waits = w ++ [2] ∨
      (doShrinkLoop r 2 1 w).waits = w ++ [2, 4] := by
    intro w
    rw [show (2 : Nat) = 1 + 1 from rfl, doShrinkLoop_succ]
    cases classifyShrink (r 1) with
    | retry =>
      right
      have h := h2 (w ++ [2])
      rw [List.append_assoc] at h
      simpa [baseDelay] using h
    | fatal e => left; simp [baseDelay]
    | ok outSize url => left; simp [baseDelay]
  rw [doShrinkWithRetry, show maxRetries + 1 = 2 + 1 from rfl, doShrinkLoop_succ]
  cases classifyShrink (r 0) with
  | retry =>
    rcases h1 [] with h | h
    · right; left; simpa using h
    · right; right; simpa using h
  | fatal e => left; simp
  | ok outSize url => left; simp

theorem doShrinkLoop_requests (r : Nat → ShrinkReply) (fuel : Nat) :
    ∀ i waits, (doShrinkLoop r fuel i waits).requests ≤ i + fuel := by
  induction fuel with
  | zero => intro i waits; simp [doShrinkLoop_zero]
  | succ fuel ih =>
    intro i waits
    rw [doShrinkLoop_succ]
    cases h : classifyShrink (r i) with
    | retry =>
      simp only [h]
      exact le_trans (ih (i + 1) _) (by omega)
    | fatal e => simp only [h]; simp
    | ok outSize url => simp only [h]; simp

theorem downloadLoop_requests (d : Nat → DlReply) (fuel : Nat) :
    ∀ i waits, (downloadLoop d fuel i waits).requests ≤ i + fuel := by
  induction fuel with
  | zero => intro i waits; simp [downloadLoop_zero]
  | succ fuel ih =>
    intro i waits
    rw [downloadLoop_succ]
    cases h : d i with
    | netFail =>
      simp only [h]
      exact le_trans (ih (i + 1) _) (by omega)
    | reply status body =>
      simp only [h]
      by_cases hs : status = 200
      · simp [hs]
      · by_cases h5 : 500 ≤ status
        · simp only [hs, h5, ne_eq, not_false_iff, if_true, if_pos]
          exact le_trans (ih (i + 1) _) (by omega)
        · simp [hs, h5]

theorem doShrinkWithRetry_requests_le (r : Nat → ShrinkReply) :
    (doShrinkWithRetry r).requests ≤ 3 := by
  simpa using doShrinkLoop_requests r (maxRetries + 1) 0 []

theorem downloadWithRetry_requests_le (d : Nat → DlReply) :
    (downloadWithRetry d).requests ≤ 3 := by
  simpa using downloadLoop_requests d (maxRetries + 1) 0 []

theorem shrinkStep_transient (r : Nat → ShrinkReply)
    (h : ∀ i, isTransientShrink (r i) = true) (fuel i : Nat) (waits : List Nat) :
    doShrinkLoop r (fuel + 1) i waits =
      doShrinkLoop r fuel (i + 1)
        (if 0 < i then waits ++ [baseDelay * 2 ^ i] else waits) := by
  rw [doShrinkLoop_succ, classifyShrink_transient (r i) (h i)]

theorem downloadStep_transient (d : Nat → DlReply)
    (h : ∀ i, isTransientDl (d i) = true) (fuel i : Nat) (waits : List Nat) :
    downloadLoop d (fuel + 1) i waits =
      downloadLoop d fuel (i + 1)
        (if 0 < i then waits ++ [baseDelay * 2 ^ i] else waits) := by
  rw [downloadLoop_succ]
  cases hd : d i with
  | netFail => rfl
  | reply status body =>
    have h5 : 500 ≤ status := by
      have hi := h i
      rw [hd] at hi
      simpa [isTransientDl] using hi
    simp [show status ≠ 200 by omega, h5]

/-- Exhausting all upload retries on transient failures. -/
theorem shrink_exhaust (r : Nat → ShrinkReply)
    (h : ∀ i, isTransientShrink (r i) = true) :
    doShrinkWithRetry r = ⟨.error .maxRetriesUpload, 3, [2, 4]⟩ := by
  rw [doShrinkWithRetry, show maxRetries + 1 = 2 + 1 from rfl,
    shrinkStep_transient r h, shrinkStep_transient r h, shrinkStep_transient r h,
    doShrinkLoop_zero]
  norm_num [baseDelay]

/-- Exhausting all download retries on transient failures. -/
theorem download_exhaust (d : Nat → DlReply)
    (h : ∀ i, isTransientDl (d i) = true) :
    downloadWithRetry d = ⟨.error .maxRetriesDownload, 3, [2, 4]⟩ := by
  rw [downloadWithRetry, show maxRetries + 1 = 2 + 1 from rfl,
    downloadStep_transient d h, downloadStep_transient d h, downloadStep_transient d h,
    downloadLoop_zero]
  norm_num [baseDelay]

/-- A non-200, non-5xx download reply fails immediately. -/
theorem download_client_error (d : Nat → DlReply) (s : Nat) (body : List Nat)
    (h0 : d 0 = DlReply.reply s body) (hs : s ≠ 200) (h5 : s < 500) :
    downloadWithRetry d = ⟨.error (.downloadFailed s), 1, []⟩ := by
  rw [downloadWithRetry, show maxRetries + 1 = 2 + 1 from rfl, downloadLoop_succ]
  simp [h0, hs, show ¬ 500 ≤ s by omega]

/-- A 200 download reply returns the body stream at once. -/
theorem download_ok (d : Nat → DlReply) (body : List Nat)
    (h0 : d 0 = DlReply.reply 200 body) :
    downloadWithRetry d = ⟨.ok body, 1, []⟩ := by
  rw [downloadWithRetry, show maxRetries + 1 = 2 + 1 from rfl, downloadLoop_succ]
  simp [h0]

/-! ## Claim C2 -/

/-- C2, counterexample: against the mock service replying 500, 500, 200,
`doShrinkWithRetry` waits 2 s before the first retry and 4 s before the
second, so the wait-before-attempt sequence is not capped by the claimed
`1s, 2s, 4s` schedule (the first wait already exceeds 1 s): the code
sleeps `baseDelay * (1 << i)` before attempt `i`, which starts at 2 s,
not 1 s. -/
theorem C2_backoff_counterexample :
    (doShrinkWithRetry mock552).waits = [2, 4] ∧
    (((doShrinkWithRetry mock552).waits.zip [1, 2, 4]).all
      (fun x => decide (x.1 ≤ x.2))) = false := by
  exact ⟨by decide, by decide⟩

/-- C2, amended: the wait before retry attempt `i` is `baseDelay * 2^i`
seconds, so every `doShrinkWithRetry` call's wait sequence is a prefix
of `[2, 4]`; against the mock replying 500 exactly twice then 200, the
call succeeds with the decoded envelope after exactly 2 retries
(3 requests) and the total backoff wait is 6 s, which is at least
`1 + 2` s. -/
theorem C2_backoff_amended :
    (∀ r, (doShrinkWithRetry r).waits = [] ∨ (doShrinkWithRetry r).waits = [2] ∨
          (doShrinkWithRetry r).waits = [2, 4]) ∧
    doShrinkWithRetry mock552 = ⟨.ok (50, ("u")), 3, [2, 4]⟩ ∧
    1 + 2 ≤ (doShrinkWithRetry mock552).waits.sum := by
  exact ⟨doShrinkWithRetry_waits, by decide, by decide⟩

/-! ## Claim C5 -/

/-- C5: when the shrink endpoint replies to the first upload request
with HTTP 401 or 429, `Compress` aborts immediately with the typed API
error carrying the status code, error code and message; exactly one
upload request is issued, no backoff wait happens, and no download
request is made. -/
theorem C5_auth_quota_no_retry (input : List Nat) (sr : Nat → ShrinkReply)
    (dr : Nat → DlReply) (c : Nat) (et m : String) (sz : Int) (url : String)
    (hc : c = 401 ∨ c = 429) (h0 : sr 0 = ShrinkReply.reply c et m sz url) :
    Compress input sr dr = ⟨.error (.api c et m), 1, [], 0, []⟩ := by
  have hs : doShrinkWithRetry sr = ⟨.error (.api c et m), 1, []⟩ := by
    rw [doShrinkWithRetry, show maxRetries + 1 = 2 + 1 from rfl, doShrinkLoop_succ]
    simp only [h0]
    have hcl : classifyShrink (ShrinkReply.reply c et m sz url) = .fatal (.api c et m) := by
      rcases hc with h | h <;> subst h <;> rfl
    simp [hcl]
  unfold Compress
  rw [hs]

/-- C5 witness: the 401 mock. -/
theorem C5_auth_quota_no_retry_witness :
    mock401 0 =
      ShrinkReply.reply 401 ("Unauthorized") ("Credentials are invalid") 0 ("") ∧
    Compress [1] mock401 mockDl200 =
      ⟨.error (.api 401 ("Unauthorized") ("Credentials are invalid")), 1, [], 0, []⟩ :=
  ⟨rfl, C5_auth_quota_no_retry [1] mock401 mockDl200 401 ("Unauthorized")
    ("Credentials are invalid") 0 ("") (Or.inl rfl) rfl⟩

/-! ## Claim C6 -/

/-- C6: transient replies (network failure or 5xx) are retried up to 2
additional attempts in both the upload and the download call — never
more than 3 requests each — and exhausting the retries surfaces the
generic max-retries error; in the download call a non-200 reply other
than 5xx fails immediately after one request, and a 200 reply returns
the body after one request. -/
theorem C6_transient_retry_policy :
    (∀ sr, (∀ i, isTransientShrink (sr i) = true) →
       doShrinkWithRetry sr = ⟨.error .maxRetriesUpload, 3, [2, 4]⟩) ∧
    (∀ dr, (∀ i, isTransientDl (dr i) = true) →
       downloadWithRetry dr = ⟨.error .maxRetriesDownload, 3, [2, 4]⟩) ∧
    (∀ dr s body, dr 0 = DlReply.reply s body → s ≠ 200 → s < 500 →
       downloadWithRetry dr = ⟨.error (.downloadFailed s), 1, []⟩) ∧
    (∀ dr body, dr 0 = DlReply.reply 200 body →
       downloadWithRetry dr = ⟨.ok body, 1, []⟩) ∧
    (∀ sr, (doShrinkWithRetry sr).requests ≤ 3) ∧
    (∀ dr, (downloadWithRetry dr).requests ≤ 3) :=
  ⟨shrink_exhaust, download_exhaust, download_client_error, download_ok,
    doShrinkWithRetry_requests_le, downloadWithRetry_requests_le⟩

/-- C6 witness: concrete mocks for each clause. -/
theorem C6_transient_retry_policy_witness :
    (∀ i, isTransientShrink (mockShrinkNetFail i) = true) ∧
    (∀ i, isTransientDl (mockDl503 i) = true) ∧
    mockDl404 0 = DlReply.reply 404 [] ∧
    mockDl200 0 = DlReply.reply 200 [9, 9] ∧
    doShrinkWithRetry mockShrinkNetFail = ⟨.error .maxRetriesUpload, 3, [2, 4]⟩ ∧
    downloadWithRetry mockDl503 = ⟨.error .maxRetriesDownload, 3, [2, 4]⟩ ∧
    downloadWithRetry mockDl404 = ⟨.error (.downloadFailed 404), 1, []⟩ ∧
    downloadWithRetry mockDl200 = ⟨.ok [9, 9], 1, []⟩ := by
  refine ⟨fun i => rfl, fun i => rfl, rfl, rfl, ?_, ?_, ?_, ?_⟩
  · exact C6_transient_retry_policy.1 mockShrinkNetFail (fun i => rfl)
  · exact C6_transient_retry_policy.2.1 mockDl503 (fun i => rfl)
  · exact C6_transient_retry_policy.2.2.1 mockDl404 404 [] rfl (by decide) (by decide)
  · exact C6_transient_retry_policy.2.2.2.1 mockDl200 [9, 9] rfl

/-! ## Claim C1 -/

/-- In `"replace"` mode the code's destination agrees with the spec's
output-policy formula (the bodies coincide once the mode test passes). -/
theorem finalPath_replace_eq_spec (cfg : Config) (p : String)
    (h : cfg.outputMode = "replace") : finalPath cfg p = specDestination cfg p := by
  unfold finalPath specDestination
  rw [if_pos h]

/-- C1: with the output mode set to `"directory"` the source computes no
destination at all — `finalPath` is only assigned inside the
`OutputMode == "replace"` branch and keeps its zero value `""` — so a
job whose compression succeeds and whose local I/O is healthy still
fails (`os.Rename` and `os.Create` on `""` fail), and nothing is placed
at the spec-mandated destination `outputDir/<basename>`. -/
theorem C1_directory_mode_code_bug :
    finalPath cfgDirectory ("/pics/a.png") = "" ∧
    specDestination cfgDirectory ("/pics/a.png") = ("/out/a.png") ∧
    (process cfgDirectory (envOK 2 2 ("/tmp/tiny-1.tmp")) fsOne jobOne).job.status = .failed ∧
    (process cfgDirectory (envOK 2 2 ("/tmp/tiny-1.tmp")) fsOne jobOne).job.error.isSome = true ∧
    fsGet (process cfgDirectory (envOK 2 2 ("/tmp/tiny-1.tmp")) fsOne jobOne).fs ("/out/a.png") =
      none := by
  exact ⟨rfl, rfl, rfl, rfl, rfl⟩

/-! ## Claim C4 -/

/-- C4: a failing trace that leaves partial output.  The remote
compression succeeds with body `[9, 9]`, the atomic rename fails (as on
a cross-device move) and the `io.Copy` inside the `copyFile` fallback
fails after 1 byte.  `copyFile` has already `os.Create`d (truncated) the
destination, so the job ends `Failed` while the destination holds the
1-byte partial content: in overwrite mode the original file itself is
destroyed, and in suffix mode a partial destination file is created. -/
theorem C4_partial_destination_code_bug :
    fsGet fsOne ("/pics/a.png") = some [1, 2, 3, 4] ∧
    (process cfgOverwrite envRenameCopyFail fsOne jobOne).job.status = .failed ∧
    fsGet (process cfgOverwrite envRenameCopyFail fsOne jobOne).fs ("/pics/a.png") =
      some [9] ∧
    (process cfgSfx envRenameCopyFail fsOne jobOne).job.status = .failed ∧
    fsGet (process cfgSfx envRenameCopyFail fsOne jobOne).fs ("/pics/a.tiny.png") =
      some [9] := by
  exact ⟨rfl, rfl, rfl, rfl, rfl⟩

/-! ## Claim C3 -/

theorem existsActive_iff (jobs : List Job) (p : String) :
    existsActive jobs p = true ↔
      ∃ j ∈ jobs, j.filePath = p ∧ j.status ≠ .done ∧ j.status ≠ .failed := by
  simp [existsActive, List.any_eq_true]

/-- C3, counterexample: a path whose only existing job is `Cancelled` is
*not* added again — the duplicate check of `AddFiles` only treats `Done`
and `Failed` as terminal (`j.Status != StatusDone && j.Status !=
StatusFailed`), so the `Cancelled` job blocks the path and the job list
is left unchanged, where the claim requires a new job to be created. -/
theorem C3_cancelled_blocked_counterexample :
    cancelledJob.status = .cancelled ∧
    (addAll ⟨[cancelledJob], [], fsOne⟩ [("/pics/a.png")]).1.jobs = [cancelledJob] := by
  exact ⟨rfl, by decide⟩

/-- C3, amended: `AddFiles` skips a path iff an existing job for the
path has a status other than `Done` and `Failed` — so `Pending`,
`Processing` *and* `Cancelled` all block re-adding; a fresh still-pending
path added twice yields exactly one job, and a path all of whose jobs
are `Done` or `Failed` is added again as a new `Pending` job. -/
theorem C3_addFiles_dedup_amended :
    (∀ s : PState, ∀ p,
       (∃ j ∈ s.jobs, j.filePath = p ∧ j.status ≠ .done ∧ j.status ≠ .failed) →
       (addAll s [p]).1.jobs = s.jobs ∧ (addAll s [p]).1.queue = s.queue ∧
       (addAll s [p]).2 = []) ∧
    (∀ s : PState, ∀ p,
       (∀ j ∈ s.jobs, j.filePath = p → j.status = .done ∨ j.status = .failed) →
       ∃ nj : Job, (addAll s [p]).1.jobs = s.jobs ++ [nj] ∧ nj.filePath = p ∧
         nj.status = .pending ∧ nj.error = none) ∧
    (∀ s : PState, ∀ p, (∀ j ∈ s.jobs, j.filePath ≠ p) →
       (addAll (addAll s [p]).1 [p]).1.jobs.length = s.jobs.length + 1) := by
  refine ⟨?_, ?_, ?_⟩
  · intro s p h
    have ha : existsActive s.jobs p = true := (existsActive_iff s.jobs p).2 h
    simp [addAll, addFile, ha]
  · intro s p h
    have ha : existsActive s.jobs p = false := by
      rw [← Bool.not_eq_true, existsActive_iff]
      rintro ⟨j, hj, hp, hd, hf⟩
      rcases h j hj hp with h1 | h1
      · exact hd h1
      · exact hf h1
    refine ⟨newJob s.fs p, ?_, rfl, rfl, rfl⟩
    simp [addAll, addFile, ha]
  · intro s p h
    have ha : existsActive s.jobs p = false := by
      rw [← Bool.not_eq_true, existsActive_iff]
      rintro ⟨j, hj, hp, _, _⟩
      exact h j hj hp
    have hstep : (addAll s [p]).1.jobs = s.jobs ++ [newJob s.fs p] := by
      simp [addAll, addFile, ha]
    have ha2 : existsActive (s.jobs ++ [newJob s.fs p]) p = true := by
      rw [existsActive_iff]
      refine ⟨newJob s.fs p, ?_, rfl, by simp [newJob], by simp [newJob]⟩
      exact List.mem_append_right _ (List.mem_singleton.2 rfl)
    simp [addAll, addFile, ha, ha2]

/-- C3 witness: a cancelled job blocks its path, and a fresh path added
twice yields one job. -/
theorem C3_addFiles_dedup_amended_witness :
    (∃ j ∈ ([cancelledJob] : List Job), j.filePath = ("/pics/a.png") ∧
       j.status ≠ .done ∧ j.status ≠ .failed) ∧
    (addAll ⟨[cancelledJob], [], fsOne⟩ [("/pics/a.png")]).1.jobs = [cancelledJob] ∧
    (addAll (addAll (initState fsOne) [("/pics/a.png")]).1
      [("/pics/a.png")]).1.jobs.length = 1 := by
  refine ⟨⟨cancelledJob, by simp, rfl, by decide, by decide⟩, ?_, ?_⟩
  · exact ((C3_addFiles_dedup_amended.1 ⟨[cancelledJob], [], fsOne⟩ ("/pics/a.png"))
      ⟨cancelledJob, by simp, rfl, by decide, by decide⟩).1
  · have h := C3_addFiles_dedup_amended.2.2 (initState fsOne) ("/pics/a.png")
      (fun j hj => by simp [initState] at hj)
    simpa [initState] using h

/-! ## Lemmas about `process` -/

theorem finishDone_stats (job : Job) (fs : FS) (cs : Int) :
    (finishDone job fs cs).1.status = .done ∧
    (finishDone job fs cs).1.error = job.error ∧
    (finishDone job fs cs).1.originalSize = job.originalSize ∧
    (finishDone job fs cs).1.compressedSize = cs ∧
    (finishDone job fs cs).1.savedBytes = job.originalSize - cs ∧
    (0 < job.originalSize →
      (finishDone job fs cs).1.savedPercent =
        ((job.originalSize - cs : Int) : ℚ) / (job.originalSize : ℚ) * 100) ∧
    (¬ 0 < job.originalSize → (finishDone job fs cs).1.savedPercent = job.savedPercent) := by
  unfold finishDone
  by_cases h : 0 < job.originalSize <;> simp [h]

/-- Every `processCore` outcome is terminal: `Failed` with a recorded
error, or `Done` with the error field untouched and the savings formulas
of pipeline.go lines 316-320 applied. -/
theorem processCore_spec (cfg : Config) (env : Env) (fs : FS) (job : Job) :
    ((processCore cfg env fs job).1.status = .failed ∧
       (processCore cfg env fs job).1.error.isSome = true) ∨
    ((processCore cfg env fs job).1.status = .done ∧
       (processCore cfg env fs job).1.error = job.error ∧
       (processCore cfg env fs job).1.originalSize = job.originalSize ∧
       (processCore cfg env fs job).1.savedBytes =
         job.originalSize - (processCore cfg env fs job).1.compressedSize ∧
       (0 < job.originalSize →
         (processCore cfg env fs job).1.savedPercent =
           ((processCore cfg env fs job).1.savedBytes : ℚ) / (job.originalSize : ℚ) * 100) ∧
       (¬ 0 < job.originalSize →
         (processCore cfg env fs job).1.savedPercent = job.savedPercent)) := by
  have hdone : ∀ (fs2 : FS) (cs : Int),
      (finishDone job fs2 cs).1.status = .done ∧
      (finishDone job fs2 cs).1.error = job.error ∧
      (finishDone job fs2 cs).1.originalSize = job.originalSize ∧
      (finishDone job fs2 cs).1.savedBytes =
        job.originalSize - (finishDone job fs2 cs).1.compressedSize ∧
      (0 < job.originalSize →
        (finishDone job fs2 cs).1.savedPercent =
          ((finishDone job fs2 cs).1.savedBytes : ℚ) / (job.originalSize : ℚ) * 100) ∧
      (¬ 0 < job.originalSize →
        (finishDone job fs2 cs).1.savedPercent = job.savedPercent) := by
    intro fs2 cs
    obtain ⟨h1, h2, h3, h4, h5, h6, h7⟩ := finishDone_stats job fs2 cs
    exact ⟨h1, h2, h3, by rw [h4, h5], by intro h; rw [h5, h6 h], h7⟩
  rcases hopen : fsGet fs job.filePath with _ | input
  · left; simp [processCore, hopen]
  · by_cases h1 : env.tempCreateFails = true
    · left; simp [processCore, hopen, h1]
    · rcases hc : (Compress input env.shrinkReplies env.dlReplies).result with e | ⟨body, cs, os⟩
      · left; simp [processCore, hopen, h1, hc]
      · by_cases h2 : env.copyStreamFails = true
        · left; simp [processCore, hopen, h1, hc, h2]
        · by_cases h3 : env.mkdirFails = true
          · left; simp [processCore, hopen, h1, hc, h2, h3]
          · by_cases h4 : env.renameFails = false ∧ finalPath cfg job.filePath ≠ ""
            · right
              simpa [processCore, hopen, h1, hc, h2, h3, h4.1, h4.2] using hdone _ _
            · by_cases h5 : env.copyCreateFails = true ∨ finalPath cfg job.filePath = ""
              · left; simp [processCore, hopen, h1, hc, h2, h3, h4, h5]
              · by_cases h6 : env.copyDataFails = true
                · left; simp [processCore, hopen, h1, hc, h2, h3, h4, h5, h6]
                · right
                  simpa [processCore, hopen, h1, hc, h2, h3, h4, h5, h6] using hdone _ _

/-- After `process`, the temp path never holds a file: the unconditional
`defer os.Remove(tmpName)` of pipeline.go line 214 runs on every return
path after the temp file was created, and on the paths before its
creation the filesystem is untouched. -/
theorem processCore_tmp_gone (cfg : Config) (env : Env) (fs : FS) (job : Job)
    (hfresh : fsGet fs env.tmpName = none) :
    fsGet (processCore cfg env fs job).2 env.tmpName = none := by
  rcases hopen : fsGet fs job.filePath with _ | input
  · simpa [processCore, hopen] using hfresh
  · by_cases h1 : env.tempCreateFails = true
    · simpa [processCore, hopen, h1] using hfresh
    · rcases hc : (Compress input env.shrinkReplies env.dlReplies).result with e | ⟨body, cs, os⟩
      · simp [processCore, hopen, h1, hc]
        simp [fsGet, fsRemove]
      · by_cases h2 : env.copyStreamFails = true
        · simp [processCore, hopen, h1, hc, h2]
          simp [fsGet, fsRemove]
        · by_cases h3 : env.mkdirFails = true
          · simp [processCore, hopen, h1, hc, h2, h3]
            simp [fsGet, fsRemove]
          · by_cases h4 : env.renameFails = false ∧ finalPath cfg job.filePath ≠ ""
            · simp [processCore, hopen, h1, hc, h2, h3, h4.1, h4.2, finishDone]
              simp [fsGet, fsRemove]
            · by_cases h5 : env.copyCreateFails = true ∨ finalPath cfg job.filePath = ""
              · simp [processCore, hopen, h1, hc, h2, h3, h4, h5]
                simp [fsGet, fsRemove]
              · by_cases h6 : env.copyDataFails = true
                · simp [processCore, hopen, h1, hc, h2, h3, h4, h5, h6]
                  simp [fsGet, fsRemove]
                · simp [processCore, hopen, h1, hc, h2, h3, h4, h5, h6, finishDone]
                  simp [fsGet, fsRemove]

/-! ## Claim C9 -/

/-- C9: no temp-file residue.  For every `process` call on a filesystem
where the fresh temp path does not yet exist, the temp path holds no
file when `process` returns — on every failure path after the temp file
is created the deferred cleanups remove it, on success via rename it was
moved away (and the unconditional deferred remove is a no-op), and on
success via the copy fallback the unconditional deferred remove deletes
it; the `success`-guarded cleanup is suppressed exactly when placement
succeeded. -/
theorem C9_no_temp_residue (cfg : Config) (env : Env) (fs : FS) (job : Job)
    (hfresh : fsGet fs env.tmpName = none) :
    fsGet (process cfg env fs job).fs env.tmpName = none := by
  unfold process
  exact processCore_tmp_gone cfg env fs _ hfresh

/-- C9 witness: a healthy suffix-mode job. -/
theorem C9_no_temp_residue_witness :
    fsGet fsOne ("/tmp/tiny-1.tmp") = none ∧
    fsGet (process cfgSfx (envOK 2 2 ("/tmp/tiny-1.tmp")) fsOne jobOne).fs
      ("/tmp/tiny-1.tmp") = none :=
  ⟨rfl, C9_no_temp_residue cfgSfx (envOK 2 2 ("/tmp/tiny-1.tmp")) fsOne jobOne rfl⟩

/-! ## The pipeline-invariant induction -/

theorem statusHistory_append (idx : Nat) (ups more : List (Nat × Job)) :
    statusHistory idx (ups ++ more) =
      statusHistory idx ups ++
        (more.filter (fun u => u.1 = idx)).map (fun u => u.2.status) := by
  simp [statusHistory, List.filter_append]

theorem statusHistory_ne_nil (idx : Nat) (ups : List (Nat × Job)) :
    statusHistory idx ups ≠ [] := by
  simp [statusHistory]

theorem addFile_good (s : PState) (p : String) (ups : List (Nat × Job))
    (hg : goodState s ups) :
    goodState ⟨(addFile s.fs s.jobs p).1, s.queue ++ (addFile s.fs s.jobs p).2.1, s.fs⟩
      (ups ++ (addFile s.fs s.jobs p).2.2) := by
  obtain ⟨⟨hnd, hbound, hjobs⟩, hhist, hupd⟩ := hg
  by_cases ha : existsActive s.jobs p = true
  · have heq : addFile s.fs s.jobs p = (s.jobs, [], []) := by simp [addFile, ha]
    rw [heq]
    dsimp only
    simpa using ⟨⟨hnd, hbound, hjobs⟩, hhist, hupd⟩
  · have heq : addFile s.fs s.jobs p =
        (s.jobs ++ [newJob s.fs p], [s.jobs.length], [(s.jobs.length, newJob s.fs p)]) := by
      simp [addFile, ha]
    rw [heq]
    dsimp only
    refine ⟨⟨?_, ?_, ?_⟩, ?_, ?_⟩
    · refine List.Nodup.append hnd (List.nodup_singleton _) ?_
      intro a haq hamem
      rw [List.mem_singleton] at hamem
      subst hamem
      exact absurd (hbound _ haq) (lt_irrefl _)
    · intro i hi
      simp only [List.length_append, List.length_singleton]
      rcases List.mem_append.1 hi with h | h
      · exact lt_of_lt_of_le (hbound _ h) (by omega)
      · rw [List.mem_singleton] at h; omega
    · intro i j hj
      by_cases hilt : i < s.jobs.length
      · rw [List.getElem?_append_left hilt] at hj
        rcases hjobs i j hj with ⟨h1, h2, h3, h4⟩ | ⟨h1, h2, h3⟩
        · exact Or.inl ⟨h1, List.mem_append_left _ h2, h3, h4⟩
        · refine Or.inr ⟨h1, ?_, h3⟩
          intro hmem
          rcases List.mem_append.1 hmem with hq | hq
          · exact h2 hq
          · rw [List.mem_singleton] at hq; omega
      · by_cases hieq : i = s.jobs.length
        · subst hieq
          rw [List.getElem?_concat_length] at hj
          have hj' : newJob s.fs p = j := by injection hj
          subst hj'
          exact Or.inl ⟨rfl, List.mem_append_right _ (List.mem_singleton.2 rfl), rfl, rfl⟩
        · exfalso
          rw [List.getElem?_eq_none (by simp; omega)] at hj
          cases hj
    · intro idx
      rw [statusHistory_append]
      by_cases hidx : idx = s.jobs.length
      · subst hidx
        have hfilter : (([(s.jobs.length, newJob s.fs p)] :
            List (Nat × Job)).filter (fun u => u.1 = s.jobs.length)).map
              (fun u => u.2.status) = [JobStatus.pending] := by
          simp [newJob]
        rw [hfilter]
        have hlast := (hhist s.jobs.length).2
        have hcur : currentStatus s s.jobs.length = .pending := by
          simp [currentStatus, List.getElem?_eq_none (le_refl s.jobs.length)]
        constructor
        · rw [List.chain'_append]
          refine ⟨(hhist s.jobs.length).1, List.chain'_singleton _, ?_⟩
          intro x hx y hy
          rw [hlast] at hx
          rw [Option.mem_def, Option.some.injEq] at hx
          simp only [List.head?_cons, Option.mem_def, Option.some.injEq] at hy
          subst hx; subst hy
          rw [hcur]
          rfl
        · rw [List.getLast?_append_of_ne_nil _ (by simp)]
          have : currentStatus
              ⟨s.jobs ++ [newJob s.fs p], s.queue ++ [s.jobs.length], s.fs⟩
              s.jobs.length = .pending := by
            simp [currentStatus, List.getElem?_concat_length, newJob]
          rw [this]
          rfl
      · have hfilter : (([(s.jobs.length, newJob s.fs p)] :
            List (Nat × Job)).filter (fun u => u.1 = idx)).map
              (fun u => u.2.status) = [] := by
          simp [Ne.symm hidx]
        rw [hfilter, List.append_nil]
        have hcur : currentStatus
            ⟨s.jobs ++ [newJob s.fs p], s.queue ++ [s.jobs.length], s.fs⟩ idx =
            currentStatus s idx := by
          by_cases hilt : idx < s.jobs.length
          · simp [currentStatus, List.getElem?_append_left hilt]
          · have h1 : s.jobs[idx]? = none := List.getElem?_eq_none (by omega)
            have h2 : (s.jobs ++ [newJob s.fs p])[idx]? = none :=
              List.getElem?_eq_none (by simp; omega)
            simp [currentStatus, h1, h2]
        rw [hcur]
        exact hhist idx
    · intro u hu
      rcases List.mem_append.1 hu with h | h
      · exact hupd u h
      · rw [List.mem_singleton] at h
        subst h
        constructor <;> intro hst <;> simp [newJob] at hst

theorem addAll_good (paths : List String) : ∀ (s : PState) (ups : List (Nat × Job)),
    goodState s ups → goodState (addAll s paths).1 (ups ++ (addAll s paths).2) := by
  induction paths with
  | nil =>
    intro s ups hg
    simpa [addAll] using hg
  | cons p ps ih =>
    intro s ups hg
    have h1 := addFile_good s p ups hg
    have h2 := ih _ _ h1
    simpa [addAll, List.append_assoc] using h2

theorem dispatch_good (s : PState) (cfg : Config) (env : Env) (ups : List (Nat × Job))
    (hg : goodState s ups) :
    goodState (step s (POp.dispatch cfg env)).1
      (ups ++ (step s (POp.dispatch cfg env)).2) := by
  obtain ⟨⟨hnd, hbound, hjobs⟩, hhist, hupd⟩ := hg
  rcases hq : s.queue with _ | ⟨idx, rest⟩
  · have hstep : step s (POp.dispatch cfg env) = (s, []) := by simp [step, hq]
    rw [hstep]
    simpa using ⟨⟨hnd, hbound, hjobs⟩, hhist, hupd⟩
  · have hidxq : idx ∈ s.queue := by rw [hq]; exact List.mem_cons_self _ _
    have hlt : idx < s.jobs.length := hbound idx hidxq
    obtain ⟨job, hjob⟩ : ∃ j, s.jobs[idx]? = some j :=
      ⟨s.jobs[idx], List.getElem?_eq_getElem hlt⟩
    rcases hjobs idx job hjob with ⟨hpend, _, herr, hpct⟩ | ⟨_, hnq, _⟩
    swap
    · exact absurd hidxq hnq
    have hnc : ¬ job.status = JobStatus.cancelled := by rw [hpend]; intro h; cases h
    have hstep : step s (POp.dispatch cfg env) =
        (⟨s.jobs.set idx (process cfg env s.fs job).job, rest, (process cfg env s.fs job).fs⟩,
         (process cfg env s.fs job).updates.map (fun j => (idx, j))) := by
      simp [step, hq, hjob, hnc]
    rw [hstep]
    dsimp only
    have hjr : (process cfg env s.fs job).job =
        (processCore cfg env s.fs { job with status := JobStatus.processing }).1 := rfl
    have hups : (process cfg env s.fs job).updates.map (fun j => (idx, j)) =
        [(idx, { job with status := JobStatus.processing }),
         (idx, (process cfg env s.fs job).job)] := rfl
    have hspec := processCore_spec cfg env s.fs { job with status := JobStatus.processing }
    rw [← hjr] at hspec
    have hterm : (process cfg env s.fs job).job.status = JobStatus.done ∨
        (process cfg env s.fs job).job.status = JobStatus.failed := by
      rcases hspec with ⟨h1, _⟩ | ⟨h1, _⟩
      · exact Or.inr h1
      · exact Or.inl h1
    have hstats : statsOK (process cfg env s.fs job).job := by
      rcases hspec with ⟨h1, _⟩ | ⟨h1, h2, h3, h4, h5, h6⟩
      · intro hd; rw [h1] at hd; cases hd
      · intro _
        refine ⟨by rw [h4]; rw [h3], ?_, ?_⟩
        · intro hpos
          rw [h3] at hpos ⊢
          exact h5 hpos
        · intro hpos
          rw [h3] at hpos
          rw [h6 hpos]
          exact hpct
    have hupdok : (fun u => (u.2.status = JobStatus.failed → u.2.error.isSome = true) ∧
        (u.2.status = JobStatus.done → u.2.error = none))
          (idx, (process cfg env s.fs job).job) := by
      rcases hspec with ⟨h1, h2⟩ | ⟨h1, h2, _⟩
      · refine ⟨fun _ => h2, fun hd => ?_⟩
        rw [h1] at hd; cases hd
      · refine ⟨fun hf => ?_, fun _ => ?_⟩
        · rw [h1] at hf; cases hf
        · rw [h2]; exact herr
    have hndc := List.nodup_cons.1 (hq ▸ hnd)
    refine ⟨⟨hndc.2, ?_, ?_⟩, ?_, ?_⟩
    · intro i hi
      rw [List.length_set]
      exact hbound i (by rw [hq]; exact List.mem_cons_of_mem _ hi)
    · intro i j hj
      by_cases hie : i = idx
      · subst hie
        rw [List.getElem?_set_eq hlt] at hj
        have hj' : (process cfg env s.fs job).job = j := by injection hj
        subst hj'
        exact Or.inr ⟨hterm, hndc.1, hstats⟩
      · rw [List.getElem?_set_ne (fun hh => hie hh.symm)] at hj
        rcases hjobs i j hj with ⟨h1, h2, h3, h4⟩ | ⟨h1, h2, h3⟩
        · refine Or.inl ⟨h1, ?_, h3, h4⟩
          rw [hq] at h2
          rcases List.mem_cons.1 h2 with h | h
          · exact absurd h hie
          · exact h
        · refine Or.inr ⟨h1, ?_, h3⟩
          intro hmem
          exact h2 (by rw [hq]; exact List.mem_cons_of_mem _ hmem)
    · intro idx'
      rw [hups, statusHistory_append]
      have hcurold : currentStatus s idx = job.status := by
        simp [currentStatus, hjob]
      by_cases hidx : idx' = idx
      · subst hidx
        have hfilter : ((([(idx', { job with status := JobStatus.processing }),
            (idx', (process cfg env s.fs job).job)]) :
            List (Nat × Job)).filter (fun u => u.1 = idx')).map (fun u => u.2.status) =
            [JobStatus.processing, (process cfg env s.fs job).job.status] := by
          simp
        rw [hfilter]
        constructor
        · rw [List.chain'_append]
          refine ⟨(hhist idx').1, ?_, ?_⟩
          · rw [List.chain'_cons]
            refine ⟨?_, List.chain'_singleton _⟩
            rcases hterm with h | h <;> rw [h] <;> rfl
          · intro x hx y hy
            rw [(hhist idx').2] at hx
            rw [Option.mem_def, Option.some.injEq] at hx
            simp only [List.head?_cons, Option.mem_def, Option.some.injEq] at hy
            subst hx; subst hy
            rw [hcurold, hpend]
            rfl
        · rw [List.getLast?_append_of_ne_nil _ (by simp)]
          have hcurnew : currentStatus
              ⟨s.jobs.set idx' (process cfg env s.fs job).job, rest,
                (process cfg env s.fs job).fs⟩ idx' =
              (process cfg env s.fs job).job.status := by
            simp [currentStatus, List.getElem?_set_eq hlt]
          rw [hcurnew]
          rfl
      · have hfilter : ((([(idx, { job with status := JobStatus.processing }),
            (idx, (process cfg env s.fs job).job)]) :
            List (Nat × Job)).filter (fun u => u.1 = idx')).map (fun u => u.2.status) =
            [] := by
          simp [Ne.symm hidx]
        rw [hfilter, List.append_nil]
        have hcur : currentStatus
            ⟨s.jobs.set idx (process cfg env s.fs job).job, rest,
              (process cfg env s.fs job).fs⟩ idx' = currentStatus s idx' := by
          simp [currentStatus, List.getElem?_set_ne (fun hh => hidx hh.symm)]
        rw [hcur]
        exact hhist idx'
    · intro u hu
      rw [hups] at hu
      rcases List.mem_append.1 hu with h | h
      · exact hupd u h
      · rcases List.mem_cons.1 h with h | h
        · subst h
          constructor <;> intro hst <;> cases hst
        · rw [List.mem_singleton] at h
          subst h
          exact hupdok

theorem run_good (ops : List POp) : ∀ (s : PState) (ups : List (Nat × Job)),
    goodState s ups → goodState (run s ops).1 (ups ++ (run s ops).2) := by
  induction ops with
  | nil =>
    intro s ups hg
    simpa [run] using hg
  | cons op ops ih =>
    intro s ups hg
    have h1 : goodState (step s op).1 (ups ++ (step s op).2) := by
      cases op with
      | add paths => simpa [step] using addAll_good paths s ups hg
      | dispatch cfg env => exact dispatch_good s cfg env ups hg
    have h2 := ih _ _ h1
    simpa [run, List.append_assoc] using h2

theorem goodState_init (fs : FS) : goodState (initState fs) [] := by
  refine ⟨⟨List.nodup_nil, ?_, ?_⟩, ?_, ?_⟩
  · intro i hi; cases hi
  · intro i j hj; rw [List.getElem?_eq_none (by simp [initState])] at hj; cases hj
  · intro idx
    constructor
    · simp [statusHistory]
    · simp [statusHistory, currentStatus, initState]
  · intro u hu; cases hu

/-! ## Claim C7 -/

/-- C7: under every sequence of pipeline operations, each job's
published status history is a chain of forward edges of the lattice
Pending → Processing → Done/Failed/Cancelled (with the Pending stutter
of the creation update).  The chain starts at `Pending`, so a `Done` or
`Failed` entry is always immediately preceded by `Processing` — a job
never reaches `Done`/`Failed` without passing through `Processing`, the
status never moves backward, and since terminal states have no outgoing
edges no job is updated or re-processed after reaching one. -/
theorem C7_status_lattice (fs : FS) (ops : List POp) (idx : Nat) :
    List.Chain' (fun a b => forwardOK a b = true)
      (statusHistory idx (run (initState fs) ops).2) := by
  have h := run_good ops (initState fs) [] (goodState_init fs)
  have h2 := (h.2.1 idx).1
  simpa using h2

/-! ## Claim C10 -/

/-- C10: in every published update, a `Failed` snapshot carries a
non-nil recorded error and a `Done` snapshot carries none. -/
theorem C10_failed_has_error (fs : FS) (ops : List POp) (u : Nat × Job)
    (hu : u ∈ (run (initState fs) ops).2) :
    (u.2.status = JobStatus.failed → u.2.error.isSome = true) ∧
    (u.2.status = JobStatus.done → u.2.error = none) := by
  have h := run_good ops (initState fs) [] (goodState_init fs)
  exact h.2.2 u (by simpa using hu)

/-- C10 witness: the `Pending` update published by one `AddFiles`. -/
theorem C10_failed_has_error_witness :
    (0, newJob fsOne ("/pics/a.png")) ∈
      (run (initState fsOne) [POp.add [("/pics/a.png")]]).2 ∧
    ((0, newJob fsOne ("/pics/a.png")).2.status = JobStatus.done →
      (0, newJob fsOne ("/pics/a.png")).2.error = none) :=
  ⟨by decide, (C10_failed_has_error fsOne [POp.add [("/pics/a.png")]]
      (0, newJob fsOne ("/pics/a.png")) (by decide)).2⟩

/-! ## Claim C8 -/

set_option maxRecDepth 40000 in
/-- C8, counterexample: in the 100/200/300 → 50/100/150 scenario the
total saved bytes are 300 (50 + 100 + 150), not the 150 the claim
states — half of the 600 input bytes are saved, which is indeed a 50 %
reduction, but that is 300 bytes. -/
theorem C8_total_saved_counterexample :
    ((run (initState fs3) ops3).1.jobs.map (fun j => j.savedBytes)).sum = 300 ∧
    (300 : Int) ≠ 150 := by
  exact ⟨by decide, by decide⟩

set_option maxRecDepth 40000 in
/-- C8, amended: for every job that reaches `Done`,
`savedBytes = originalSize - compressedSize`, and
`savedPercent = savedBytes / originalSize * 100` when `originalSize > 0`
while the field is left at its previous value (0 for pipeline-created
jobs) when `originalSize ≤ 0`; in the 100/200/300 → 50/100/150 scenario
all three jobs end `Done`, each individual job's `savedPercent` is 50,
and the total saved is 300 bytes. -/
theorem C8_savings_amended :
    (∀ cfg env fs job,
       (process cfg env fs job).job.status = JobStatus.done →
       (process cfg env fs job).job.savedBytes =
         job.originalSize - (process cfg env fs job).job.compressedSize ∧
       (0 < job.originalSize → (process cfg env fs job).job.savedPercent =
         ((process cfg env fs job).job.savedBytes : ℚ) / (job.originalSize : ℚ) * 100) ∧
       (¬ 0 < job.originalSize →
         (process cfg env fs job).job.savedPercent = job.savedPercent)) ∧
    (run (initState fs3) ops3).1.jobs.map (fun j => j.status) =
      [JobStatus.done, JobStatus.done, JobStatus.done] ∧
    ((run (initState fs3) ops3).1.jobs.map (fun j => j.savedBytes)).sum = 300 ∧
    (∀ (i : Nat) (j : Job), (run (initState fs3) ops3).1.jobs[i]? = some j →
       j.savedPercent = 50) := by
  refine ⟨?_, by decide, by decide, ?_⟩
  · intro cfg env fs job hdone
    have hspec := processCore_spec cfg env fs { job with status := JobStatus.processing }
    have hj : (process cfg env fs job).job =
        (processCore cfg env fs { job with status := JobStatus.processing }).1 := rfl
    rw [← hj] at hspec
    rcases hspec with ⟨hf, _⟩ | ⟨_, _, _, h4, h5, h6⟩
    · rw [hf] at hdone; cases hdone
    · exact ⟨h4, h5, h6⟩
  · intro i j hj
    have hgood := run_good ops3 (initState fs3) [] (goodState_init fs3)
    obtain ⟨⟨_, _, hjobs⟩, _, _⟩ := hgood
    have hlen : (run (initState fs3) ops3).1.jobs.length = 3 := by decide
    have hi : i < 3 := by
      by_contra hge
      rw [List.getElem?_eq_none (by rw [hlen]; omega)] at hj
      cases hj
    have hqe : (run (initState fs3) ops3).1.queue = [] := by decide
    rcases hjobs i j hj with ⟨_, hq2, _⟩ | ⟨_, _, hstats⟩
    · rw [hqe] at hq2; cases hq2
    · interval_cases i
      · have hst : ((run (initState fs3) ops3).1.jobs[0]?.map
            (fun k => (k.status, k.savedBytes, k.originalSize))) =
            some (JobStatus.done, 50, 100) := by decide
        rw [hj] at hst
        simp only [Option.map_some', Option.some.injEq, Prod.mk.injEq] at hst
        obtain ⟨hs1, hs2, hs3⟩ := hst
        obtain ⟨_, hp2, _⟩ := hstats hs1
        rw [hp2 (by rw [hs3]; norm_num), hs2, hs3]
        norm_num
      · have hst : ((run (initState fs3) ops3).1.jobs[1]?.map
            (fun k => (k.status, k.savedBytes, k.originalSize))) =
            some (JobStatus.done, 100, 200) := by decide
        rw [hj] at hst
        simp only [Option.map_some', Option.some.injEq, Prod.mk.injEq] at hst
        obtain ⟨hs1, hs2, hs3⟩ := hst
        obtain ⟨_, hp2, _⟩ := hstats hs1
        rw [hp2 (by rw [hs3]; norm_num), hs2, hs3]
        norm_num
      · have hst : ((run (initState fs3) ops3).1.jobs[2]?.map
            (fun k => (k.status, k.savedBytes, k.originalSize))) =
            some (JobStatus.done, 150, 300) := by decide
        rw [hj] at hst
        simp only [Option.map_some', Option.some.injEq, Prod.mk.injEq] at hst
        obtain ⟨hs1, hs2, hs3⟩ := hst
        obtain ⟨_, hp2, _⟩ := hstats hs1
        rw [hp2 (by rw [hs3]; norm_num), hs2, hs3]
        norm_num

/-- C8 witness: one healthy 4-byte job compressed to 2 bytes. -/
theorem C8_savings_amended_witness :
    (process cfgSfx (envOK 2 2 ("/tmp/tiny-1.tmp")) fsOne jobOne).job.status =
      JobStatus.done ∧
    (process cfgSfx (envOK 2 2 ("/tmp/tiny-1.tmp")) fsOne jobOne).job.savedBytes =
      jobOne.originalSize -
        (process cfgSfx (envOK 2 2 ("/tmp/tiny-1.tmp")) fsOne jobOne).job.compressedSize :=
  ⟨rfl, (C8_savings_amended.1 cfgSfx (envOK 2 2 ("/tmp/tiny-1.tmp")) fsOne jobOne rfl).1⟩

end Tinytui
